import Mathlib

/-!
Verification of the rate-limiting / caching subsystem of the cocobot
repository (utils/rate_limit.py, utils/cache.py, utils/database.py).

Timestamps, windows and TTLs are exact integers (every property proved
here uses only ordered-ring reasoning, so nothing depends on the choice
of the time domain); Python dicts
become association lists; SQLAlchemy rows become a list of row records; a
Python exception escaping a call is modelled by an Option-valued result
(none = the call raised).
-/

namespace Cocobot

/-! ### Python dict operations (keys are strings, unique per dict) -/

/-- Lookup in a Python dict: the binding for a key, if present. -/
def dget {α : Type} : List (String × α) → String → Option α
  | [], _ => none
  | (k', v) :: m, k => if k' = k then some v else dget m k

/-- Assignment `d[k] = v`: replace the binding if the key is present,
otherwise append a fresh binding. -/
def dset {α : Type} : List (String × α) → String → α → List (String × α)
  | [], k, v => [(k, v)]
  | (k', v') :: m, k, v =>
    if k' = k then (k, v) :: m else (k', v') :: dset m k v

/-- Deletion `del d[k]`: remove the binding for the key (dict keys are
unique, so removing every pair with that key is the same operation). -/
def ddel {α : Type} (m : List (String × α)) (k : String) : List (String × α) :=
  m.filter (fun p => p.1 ≠ k)

/-! ### InMemoryRateLimiter (utils/rate_limit.py lines 126-180) -/

/-- One value of the per-key dict `self.limits`: the stored request
timestamps and the `window_start` recorded at creation time. -/
structure MemEntry where
  requests : List ℤ
  windowStart : ℤ
deriving DecidableEq

/-- The `self.limits` dict of `InMemoryRateLimiter`. -/
abbrev MemState := List (String × MemEntry)

/-- The dict key `f"{identifier}:{resource}"`. -/
def memKey (identifier resource : String) : String :=
  identifier ++ ":" ++ resource

/-- `InMemoryRateLimiter.is_allowed`.  The first component is `none` when
the Python call raises (indexing `requests[0]` on an empty list, reachable
only with `max_requests = 0`); otherwise `some (allowed, retry_after)`.
The second component is the dict after the call (the pruned list is
written back before the length test, so it is updated even on rejection
and on the raising path). -/
def memIsAllowed (st : MemState) (identifier resource : String)
    (maxRequests : ℕ) (windowSeconds now : ℤ) :
    Option (Bool × ℤ) × MemState :=
  let key := memKey identifier resource
  let windowStart := now - windowSeconds
  let entry : MemEntry := match dget st key with
    | none => ⟨[], now⟩
    | some e => e
  let pruned := entry.requests.filter (fun r => windowStart < r)
  if maxRequests ≤ pruned.length then
    match pruned with
    | [] => (none, dset st key ⟨pruned, entry.windowStart⟩)
    | oldest :: _ =>
      (some (false, max 0 (oldest + windowSeconds - now)),
       dset st key ⟨pruned, entry.windowStart⟩)
  else
    (some (true, 0), dset st key ⟨pruned ++ [now], entry.windowStart⟩)

/-- `InMemoryRateLimiter.reset_limit`: delete the key if present. -/
def memResetLimit (st : MemState) (identifier resource : String) : MemState :=
  ddel st (memKey identifier resource)

/-- The timestamp list currently stored for a pair (empty when the key is
absent). -/
def memStored (st : MemState) (identifier resource : String) : List ℤ :=
  match dget st (memKey identifier resource) with
  | none => []
  | some e => e.requests

/-! ### RateLimit table rows (utils/database.py lines 75-85) -/

/-- One row of the `rate_limits` table (the synthetic `id` and audit
timestamps are irrelevant to the limiter logic and omitted). -/
structure RateLimitRow where
  identifier : String
  resource : String
  requestsCount : ℕ
  resetAt : ℤ
deriving DecidableEq

/-- The `rate_limits` table contents, in insertion order. -/
abbrev DbState := List RateLimitRow

/-- The filter `RateLimit.identifier == identifier, RateLimit.resource ==
resource` of the SQLAlchemy queries. -/
def rowMatches (identifier resource : String) (r : RateLimitRow) : Bool :=
  r.identifier == identifier && r.resource == resource

/-- `.first()` of the filtered query. -/
def dbStored (db : DbState) (identifier resource : String) : Option RateLimitRow :=
  db.find? (rowMatches identifier resource)

/-- Mutate the first row satisfying the predicate (SQLAlchemy attribute
assignment on the row returned by `.first()`). -/
def updateFirst (p : RateLimitRow → Bool) (f : RateLimitRow → RateLimitRow) :
    DbState → DbState
  | [] => []
  | r :: rs => if p r then f r :: rs else r :: updateFirst p f rs

/-- Delete the first row satisfying the predicate (`db.delete` on the row
returned by `.first()`). -/
def removeFirst (p : RateLimitRow → Bool) : DbState → DbState
  | [] => []
  | r :: rs => if p r then rs else r :: removeFirst p rs

/-- Schema description of one column of the `rate_limits` table, as
declared in utils/database.py. -/
structure ColumnSpec where
  name : String
  unique : Bool
  indexed : Bool
  primaryKey : Bool
deriving DecidableEq

/-- The columns of the `rate_limits` table exactly as declared:
`id` is the autoincrement primary key, `identifier` carries a plain
(non-unique) index, and no column carries `unique=True`. -/
def rateLimitTableColumns : List ColumnSpec :=
  [⟨"id", false, false, true⟩,
   ⟨"identifier", false, true, false⟩,
   ⟨"resource", false, false, false⟩,
   ⟨"requests_count", false, false, false⟩,
   ⟨"reset_at", false, false, false⟩,
   ⟨"created_at", false, false, false⟩,
   ⟨"updated_at", false, false, false⟩]

/-- Table-level constraints of the `rate_limits` model: the source
declares none (no `__table_args__`, no `UniqueConstraint`). -/
def rateLimitTableUniqueConstraints : List (List String) := []

/-! ### DatabaseRateLimiter (utils/rate_limit.py lines 35-123) -/

/-- `DatabaseRateLimiter.is_allowed`.  `now` stands for the value of
`datetime.utcnow()` during the call. -/
def dbIsAllowed (db : DbState) (identifier resource : String)
    (maxRequests : ℕ) (windowSeconds now : ℤ) : (Bool × ℤ) × DbState :=
  match dbStored db identifier resource with
  | none =>
    ((true, 0), db ++ [⟨identifier, resource, 1, now + windowSeconds⟩])
  | some row =>
    if row.resetAt < now then
      ((true, 0),
       updateFirst (rowMatches identifier resource)
         (fun r => { r with requestsCount := 1, resetAt := now + windowSeconds }) db)
    else if maxRequests ≤ row.requestsCount then
      let elapsed := now - (row.resetAt - windowSeconds)
      ((false, max 0 (windowSeconds - elapsed)), db)
    else
      ((true, 0),
       updateFirst (rowMatches identifier resource)
         (fun r => { r with requestsCount := r.requestsCount + 1 }) db)

/-- `DatabaseRateLimiter.reset_limit`: delete the row returned by
`.first()`, if any. -/
def dbResetLimit (db : DbState) (identifier resource : String) : DbState :=
  match dbStored db identifier resource with
  | none => db
  | some _ => removeFirst (rowMatches identifier resource) db

/-! ### HybridRateLimiter and check_rate_limit (utils/rate_limit.py 183-280) -/

/-- The combined state of the hybrid limiter: the in-memory dict and the
database table. -/
structure HybridState where
  mem : MemState
  db : DbState
deriving DecidableEq

/-- `HybridRateLimiter.is_allowed`.  `nowMem` is the `time.time()` read by
the in-memory layer, `nowDb` the `datetime.utcnow()` read by the database
layer when it is consulted. -/
def hybridIsAllowed (st : HybridState) (identifier resource : String)
    (maxRequests : ℕ) (windowSeconds : ℤ) (useDb : Bool)
    (nowMem nowDb : ℤ) : Option (Bool × ℤ) × HybridState :=
  match memIsAllowed st.mem identifier resource maxRequests windowSeconds nowMem with
  | (none, mem') => (none, ⟨mem', st.db⟩)
  | (some (memAllowed, memRetryAfter), mem') =>
    if !memAllowed then
      (some (false, memRetryAfter), ⟨mem', st.db⟩)
    else if useDb then
      match dbIsAllowed st.db identifier resource maxRequests windowSeconds nowDb with
      | ((dbAllowed, dbRetryAfter), db') =>
        if !dbAllowed then (some (false, dbRetryAfter), ⟨mem', db'⟩)
        else (some (true, 0), ⟨mem', db'⟩)
    else
      (some (true, 0), ⟨mem', st.db⟩)

/-- Python exceptions that can escape `check_rate_limit`. -/
inductive PyExc where
  | rateLimitExceeded (message : String) (retryAfter : ℤ) (resource : String)
  | indexError
deriving DecidableEq

/-- Outcome of a Python call: a returned value or a raised exception. -/
inductive PyResult (α : Type) where
  | ok (a : α)
  | raised (e : PyExc)
deriving DecidableEq

/-- `check_rate_limit` (module level, acting on the global hybrid
limiter, here passed explicitly). -/
def checkRateLimit (st : HybridState) (identifier resource : String)
    (maxRequests : ℕ) (windowSeconds : ℤ) (raiseException useDb : Bool)
    (nowMem nowDb : ℤ) : PyResult Bool × HybridState :=
  match hybridIsAllowed st identifier resource maxRequests windowSeconds useDb nowMem nowDb with
  | (none, st') => (.raised .indexError, st')
  | (some (allowed, retryAfter), st') =>
    if !allowed && raiseException then
      (.raised (.rateLimitExceeded ("Rate limit exceeded for " ++ resource)
        retryAfter resource), st')
    else
      (.ok allowed, st')

/-- Run a sequence of the in-memory limiter checks at the given times;
returns the final dict and whether every call returned `(True, 0.0)`. -/
def memRun (identifier resource : String) (maxRequests : ℕ)
    (windowSeconds : ℤ) : MemState → List ℤ → MemState × Bool
  | st, [] => (st, true)
  | st, now :: rest =>
    match memIsAllowed st identifier resource maxRequests windowSeconds now with
    | (res, st') =>
      if res = some (true, 0) then memRun identifier resource maxRequests windowSeconds st' rest
      else (st', false)

/-! ### CacheManager (utils/cache.py lines 19-187)

Cached values are modelled by the fragment of Python values the module
stores: ints, floats, strings and None.  Numeric values use the exact
time domain. -/

/-- A cached Python value. -/
inductive PyVal where
  | int (n : ℤ)
  | float (x : ℤ)
  | str (s : String)
  | pyNone
deriving DecidableEq

/-- `json.dumps(value, default=str)` on the modelled value fragment
(every such value is JSON-serializable, so the `TypeError` fallback
`str(value)` is unreachable here). -/
def pyToJson : PyVal → String
  | .int n => toString n
  | .float x => toString x
  | .str s => "\"" ++ s ++ "\""
  | .pyNone => "null"

/-- `json.loads` on the stored fragment: `none` models a
`json.JSONDecodeError`. -/
def jsonLoads (s : String) : Option PyVal :=
  if s = "null" then some .pyNone
  else match s.toInt? with
  | some n => some (.int n)
  | none =>
    if 2 ≤ s.length ∧ s.front = '\"' ∧ s.back = '\"' then
      some (.str ((s.drop 1).dropRight 1))
    else none

/-- An error raised by the backing Redis client. -/
structure CacheErr where
  msg : String
deriving DecidableEq

/-- The Redis client interface used by `CacheManager`: each operation
either returns a value or raises. -/
structure RedisClient where
  rget : String → Except CacheErr (Option String)
  rsetex : String → ℤ → String → Except CacheErr Unit
  rdelete : String → Except CacheErr ℤ
  rexistsCount : String → Except CacheErr ℤ
  rflushdb : Unit → Except CacheErr Unit
  rincrby : String → ℤ → Except CacheErr ℤ
  rexpire : String → ℤ → Except CacheErr Bool
  rttl : String → Except CacheErr ℤ

/-- One entry of the in-memory fallback dict `self.memory_cache`. -/
structure CacheEntryMem where
  value : PyVal
  expiresAt : ℤ
deriving DecidableEq

/-- The state of a `CacheManager` instance. -/
structure CacheState where
  useRedis : Bool
  redisClient : Option RedisClient
  memoryCache : List (String × CacheEntryMem)
  defaultTtl : ℤ

/-- Replace the in-memory map of a manager state (used to phrase
post-states). -/
def withMemory (st : CacheState) (m : List (String × CacheEntryMem)) :
    CacheState :=
  { st with memoryCache := m }

/-- `CacheManager.get`.  `now` is the `time.time()` read during the
call. -/
def cacheGet (st : CacheState) (key : String) (now : ℤ) :
    Option PyVal × CacheState :=
  match st.useRedis, st.redisClient with
  | true, some client =>
    match client.rget key with
    | .error _ => (none, st)
    | .ok none => (none, st)
    | .ok (some s) =>
      match jsonLoads s with
      | some v => (some v, st)
      | none => (some (.str s), st)
  | _, _ =>
    match dget st.memoryCache key with
    | none => (none, st)
    | some cachedItem =>
      if now < cachedItem.expiresAt then (some cachedItem.value, st)
      else (none, { st with memoryCache := ddel st.memoryCache key })

/-- `CacheManager.set`. -/
def cacheSet (st : CacheState) (key : String) (value : PyVal)
    (ttlArg : Option ℤ) (now : ℤ) : Bool × CacheState :=
  let ttl := ttlArg.getD st.defaultTtl
  match st.useRedis, st.redisClient with
  | true, some client =>
    match client.rsetex key ttl (pyToJson value) with
    | .error _ => (false, st)
    | .ok _ => (true, st)
  | _, _ =>
    (true, { st with memoryCache := dset st.memoryCache key ⟨value, now + ttl⟩ })

/-- `CacheManager.delete`. -/
def cacheDelete (st : CacheState) (key : String) : Bool × CacheState :=
  match st.useRedis, st.redisClient with
  | true, some client =>
    match client.rdelete key with
    | .error _ => (false, st)
    | .ok result => (decide (0 < result), st)
  | _, _ =>
    if (dget st.memoryCache key).isSome then
      (true, { st with memoryCache := ddel st.memoryCache key })
    else (false, st)

/-- `CacheManager.exists`. -/
def cacheExists (st : CacheState) (key : String) (now : ℤ) :
    Bool × CacheState :=
  match st.useRedis, st.redisClient with
  | true, some client =>
    match client.rexistsCount key with
    | .error _ => (false, st)
    | .ok n => (decide (0 < n), st)
  | _, _ =>
    match dget st.memoryCache key with
    | none => (false, st)
    | some cachedItem =>
      if now < cachedItem.expiresAt then (true, st)
      else (false, { st with memoryCache := ddel st.memoryCache key })

/-- `CacheManager.clear`. -/
def cacheClear (st : CacheState) : Bool × CacheState :=
  match st.useRedis, st.redisClient with
  | true, some client =>
    match client.rflushdb () with
    | .error _ => (false, st)
    | .ok _ => (true, st)
  | _, _ => (true, { st with memoryCache := [] })

/-- `CacheManager.increment`. -/
def cacheIncrement (st : CacheState) (key : String) (amount : ℤ)
    (ttlArg : Option ℤ) (now : ℤ) : Option PyVal × CacheState :=
  let ttl := ttlArg.getD st.defaultTtl
  match st.useRedis, st.redisClient with
  | true, some client =>
    match client.rincrby key amount with
    | .error _ => (none, st)
    | .ok result =>
      if 0 < ttl then
        match client.rexpire key ttl with
        | .error _ => (none, st)
        | .ok _ => (some (.int result), st)
      else (some (.int result), st)
  | _, _ =>
    let newValue : PyVal :=
      match dget st.memoryCache key with
      | some cachedItem =>
        match cachedItem.value with
        | .int n => .int (n + amount)
        | .float x => .float (x + amount)
        | _ => .int amount
      | none => .int amount
    (some newValue,
     { st with memoryCache := dset st.memoryCache key ⟨newValue, now + ttl⟩ })

/-- `CacheManager.get_ttl`. -/
def cacheGetTtl (st : CacheState) (key : String) (now : ℤ) :
    ℤ × CacheState :=
  match st.useRedis, st.redisClient with
  | true, some client =>
    match client.rttl key with
    | .error _ => (0, st)
    | .ok ttl => (if 0 < ttl then ttl else 0, st)
  | _, _ =>
    match dget st.memoryCache key with
    | none => (0, st)
    | some cachedItem => (max 0 (cachedItem.expiresAt - now), st)

/-- A Redis client every operation of which raises. -/
def failingClient : RedisClient where
  rget _ := .error ⟨"connection lost"⟩
  rsetex _ _ _ := .error ⟨"connection lost"⟩
  rdelete _ := .error ⟨"connection lost"⟩
  rexistsCount _ := .error ⟨"connection lost"⟩
  rflushdb _ := .error ⟨"connection lost"⟩
  rincrby _ _ := .error ⟨"connection lost"⟩
  rexpire _ _ := .error ⟨"connection lost"⟩
  rttl _ := .error ⟨"connection lost"⟩

/-- The list of `(identifier, resource)` pairs of the table rows. -/
def pairKeys (db : DbState) : List (String × String) :=
  db.map (fun r => (r.identifier, r.resource))

/-- The table holds at most one row per `(identifier, resource)` pair. -/
def atMostOnePerPair (db : DbState) : Prop :=
  (pairKeys db).Nodup

instance (db : DbState) : Decidable (atMostOnePerPair db) :=
  inferInstanceAs (Decidable (pairKeys db).Nodup)

/-- One visible operation on the persistent limiter. -/
inductive DbOp where
  | check (identifier resource : String) (maxRequests : ℕ) (windowSeconds now : ℤ)
  | reset (identifier resource : String)

/-- Run a sequence of persistent-limiter operations against the table. -/
def runDbOps : List DbOp → DbState → DbState
  | [], db => db
  | .check i r m w n :: ops, db => runDbOps ops (dbIsAllowed db i r m w n).2
  | .reset i r :: ops, db => runDbOps ops (dbResetLimit db i r)

/-! ### Dictionary and table lemmas -/

theorem dget_dset_self {α : Type} (m : List (String × α)) (k : String) (v : α) :
    dget (dset m k v) k = some v := by
  induction m with
  | nil => simp [dget, dset]
  | cons p m ih =>
    obtain ⟨k', v'⟩ := p
    by_cases h : k' = k
    · simp [dget, dset, h]
    · simp [dget, dset, h, ih]

theorem dset_dset {α : Type} (m : List (String × α)) (k : String) (a b : α) :
    dset (dset m k a) k b = dset m k b := by
  induction m with
  | nil => simp [dset]
  | cons p m ih =>
    obtain ⟨k', v'⟩ := p
    by_cases h : k' = k
    · simp [dset, h]
    · simp [dset, h, ih]

theorem dset_eq_self {α : Type} {m : List (String × α)} {k : String} {v : α}
    (h : dget m k = some v) : dset m k v = m := by
  induction m with
  | nil => simp [dget] at h
  | cons p m ih =>
    obtain ⟨k', v'⟩ := p
    by_cases hk : k' = k
    · simp [dget, hk] at h
      simp [dset, hk, h]
    · simp [dget, hk] at h
      simp [dset, hk, ih h]

theorem dget_ddel_self {α : Type} (m : List (String × α)) (k : String) :
    dget (ddel m k) k = none := by
  induction m with
  | nil => simp [dget, ddel]
  | cons p m ih =>
    obtain ⟨k', v'⟩ := p
    by_cases h : k' = k
    · simpa [ddel, h] using ih
    · simpa [ddel, List.filter_cons, h, dget] using ih

theorem ddel_ddel {α : Type} (m : List (String × α)) (k : String) :
    ddel (ddel m k) k = ddel m k := by
  simp [ddel, List.filter_filter]

theorem ddel_eq_self {α : Type} {m : List (String × α)} {k : String}
    (h : dget m k = none) : ddel m k = m := by
  induction m with
  | nil => simp [ddel]
  | cons p m ih =>
    obtain ⟨k', v'⟩ := p
    by_cases hk : k' = k
    · simp [dget, hk] at h
    · simp [dget, hk] at h
      simp [ddel, List.filter_cons, hk] at ih ⊢
      exact ih h

theorem find?_append_none {α : Type} {l : List α} {p : α → Bool}
    (h : l.find? p = none) (l' : List α) :
    (l ++ l').find? p = l'.find? p := by
  induction l with
  | nil => simp
  | cons a l ih =>
    rw [List.find?_cons] at h
    rcases hp : p a with _ | _
    · rw [hp] at h
      simp only [List.cons_append, List.find?_cons, hp]
      exact ih h
    · rw [hp] at h
      simp at h

theorem find?_updateFirst {p : RateLimitRow → Bool} {f : RateLimitRow → RateLimitRow}
    (hf : ∀ x, p (f x) = p x) (db : DbState) :
    (updateFirst p f db).find? p = (db.find? p).map f := by
  induction db with
  | nil => simp [updateFirst]
  | cons r rs ih =>
    rcases hp : p r with _ | _
    · simp [updateFirst, hp, List.find?_cons, ih]
    · simp [updateFirst, hp, List.find?_cons, hf]

theorem pairKeys_updateFirst {p : RateLimitRow → Bool} {f : RateLimitRow → RateLimitRow}
    (hf : ∀ x, (f x).identifier = x.identifier ∧ (f x).resource = x.resource)
    (db : DbState) : pairKeys (updateFirst p f db) = pairKeys db := by
  induction db with
  | nil => rfl
  | cons r rs ih =>
    by_cases hp : p r = true
    · simp [updateFirst, hp, pairKeys, (hf r).1, (hf r).2]
    · simp only [updateFirst, if_neg hp, pairKeys, List.map_cons]
      simpa [pairKeys] using ih

theorem removeFirst_sublist (p : RateLimitRow → Bool) (db : DbState) :
    List.Sublist (removeFirst p db) db := by
  induction db with
  | nil => simp [removeFirst]
  | cons r rs ih =>
    by_cases hp : p r = true
    · rw [removeFirst, if_pos hp]
      exact List.sublist_cons_self r rs
    · rw [removeFirst, if_neg hp]
      exact ih.cons₂ r

/-! ### Evaluation lemmas for the in-memory limiter -/

theorem memIsAllowed_allowStep {st : MemState} {identifier resource : String}
    {maxRequests : ℕ} {W now : ℤ} {pre : List ℤ} {ws : ℤ}
    (h : dget st (memKey identifier resource) = some ⟨pre, ws⟩)
    (hlen : (pre.filter (fun x => now - W < x)).length < maxRequests) :
    memIsAllowed st identifier resource maxRequests W now =
      (some (true, 0),
       dset st (memKey identifier resource)
         ⟨pre.filter (fun x => now - W < x) ++ [now], ws⟩) := by
  simp only [memIsAllowed, h]
  rw [if_neg (not_le.mpr hlen)]

theorem memIsAllowed_allowFresh {st : MemState} {identifier resource : String}
    {maxRequests : ℕ} {W now : ℤ}
    (h : dget st (memKey identifier resource) = none)
    (hmax : 0 < maxRequests) :
    memIsAllowed st identifier resource maxRequests W now =
      (some (true, 0), dset st (memKey identifier resource) ⟨[now], now⟩) := by
  simp only [memIsAllowed, h, List.filter_nil, List.length_nil, List.nil_append]
  rw [if_neg (by omega)]

theorem memIsAllowed_reject {st : MemState} {identifier resource : String}
    {maxRequests : ℕ} {W now : ℤ} {pre : List ℤ} {oldest : ℤ} {tail : List ℤ}
    {ws : ℤ}
    (h : dget st (memKey identifier resource) = some ⟨pre, ws⟩)
    (hfil : pre.filter (fun x => now - W < x) = oldest :: tail)
    (hlen : maxRequests ≤ (oldest :: tail).length) :
    memIsAllowed st identifier resource maxRequests W now =
      (some (false, max 0 (oldest + W - now)),
       dset st (memKey identifier resource) ⟨oldest :: tail, ws⟩) := by
  simp only [memIsAllowed, h, hfil]
  rw [if_pos hlen]

theorem memStored_dset (st : MemState) (identifier resource : String)
    (l : List ℤ) (ws : ℤ) :
    memStored (dset st (memKey identifier resource) ⟨l, ws⟩)
      identifier resource = l := by
  simp [memStored, dget_dset_self]

theorem mem_step_stored (st : MemState) (identifier resource : String)
    (maxRequests : ℕ) (W now : ℤ) :
    memStored (memIsAllowed st identifier resource maxRequests W now).2
        identifier resource =
      (memStored st identifier resource).filter (fun x => now - W < x)
        ++ (if (memIsAllowed st identifier resource maxRequests W now).1
              = some (true, 0) then [now] else [])
    ∧ ((memIsAllowed st identifier resource maxRequests W now).1
          = some (true, 0) ↔
        ((memStored st identifier resource).filter
            (fun x => now - W < x)).length < maxRequests) := by
  rcases hd : dget st (memKey identifier resource) with _ | e
  · have hs : memStored st identifier resource = [] := by
      simp [memStored, hd]
    by_cases hc : maxRequests = 0
    · subst hc
      simp only [memIsAllowed, hd, List.filter_nil, List.length_nil, le_refl,
        if_true]
      refine ⟨?_, ?_⟩
      · rw [memStored_dset, hs]
        simp
      · rw [hs]
        simp
    · rw [memIsAllowed_allowFresh hd (by omega)]
      refine ⟨?_, ?_⟩
      · rw [memStored_dset, hs]
        simp
      · rw [hs]
        simp
        omega
  · obtain ⟨pre, ws⟩ := e
    have hs : memStored st identifier resource = pre := by
      simp [memStored, hd]
    rcases hfil : pre.filter (fun x => now - W < x) with _ | ⟨oldest, tail⟩
    · by_cases hc : maxRequests = 0
      · subst hc
        simp only [memIsAllowed, hd, hfil, List.length_nil, le_refl, if_true]
        refine ⟨?_, ?_⟩
        · rw [memStored_dset, hs, hfil]
          simp
        · rw [hs, hfil]
          simp
      · rw [memIsAllowed_allowStep hd
          (by rw [hfil]; simpa using Nat.pos_of_ne_zero hc)]
        refine ⟨?_, ?_⟩
        · rw [memStored_dset, hs, hfil]
          simp
        · rw [hs, hfil]
          simp
          omega
    · by_cases hc : maxRequests ≤ (oldest :: tail).length
      · rw [memIsAllowed_reject hd hfil hc]
        refine ⟨?_, ?_⟩
        · rw [memStored_dset, hs, hfil]
          simp
        · rw [hs, hfil]
          exact iff_of_false (by simp) (Nat.not_lt.mpr hc)
      · have hlt : (pre.filter (fun x => now - W < x)).length < maxRequests := by
          rw [hfil]
          omega
        rw [memIsAllowed_allowStep hd hlt]
        refine ⟨?_, ?_⟩
        · rw [memStored_dset, hs]
          simp
        · rw [hs]
          exact iff_of_true rfl hlt

theorem memRun_allowsAll (identifier resource : String) (maxRequests : ℕ)
    (W lo : ℤ) (ts : List ℤ) :
    ∀ (st : MemState) (pre : List ℤ) (ws : ℤ),
      dget st (memKey identifier resource) = some ⟨pre, ws⟩ →
      pre.length + ts.length ≤ maxRequests →
      (∀ x ∈ pre, lo ≤ x ∧ x < lo + W) →
      (∀ u ∈ ts, lo ≤ u ∧ u < lo + W) →
      memRun identifier resource maxRequests W st ts =
        (dset st (memKey identifier resource) ⟨pre ++ ts, ws⟩, true) := by
  induction ts with
  | nil =>
    intro st pre ws h hlen hpre hts
    simp [memRun, dset_eq_self h]
  | cons u rest ih =>
    intro st pre ws h hlen hpre hts
    have hfil : pre.filter (fun x => u - W < x) = pre := by
      rw [List.filter_eq_self]
      intro y hy
      have h1 := (hpre y hy).1
      have h2 := (hts u (by simp)).2
      simp only [decide_eq_true_eq]
      omega
    have hlt : (pre.filter (fun x => u - W < x)).length < maxRequests := by
      rw [hfil]
      simp only [List.length_cons] at hlen
      omega
    have hpre' : ∀ y ∈ pre ++ [u], lo ≤ y ∧ y < lo + W := by
      intro y hy
      rcases List.mem_append.mp hy with hy | hy
      · exact hpre y hy
      · have hyu : y = u := by simpa using hy
        rw [hyu]
        exact hts u (by simp)
    have hlen' : (pre ++ [u]).length + rest.length ≤ maxRequests := by
      simp only [List.length_append, List.length_cons, List.length_nil] at hlen ⊢
      omega
    have hts' : ∀ v ∈ rest, lo ≤ v ∧ v < lo + W := by
      intro v hv
      exact hts v (by simp [hv])
    rw [memRun, memIsAllowed_allowStep h hlt]
    simp only [reduceIte, hfil]
    rw [ih (dset st (memKey identifier resource) ⟨pre ++ [u], ws⟩) (pre ++ [u]) ws
      (dget_dset_self _ _ _) hlen' hpre' hts']
    rw [dset_dset]
    simp

/-- Claim C1: for the in-memory tracker with `max_requests = N` and
`window_seconds = W`, issuing exactly `N` requests at times
`t0 :: rest` that all lie within `W` of each other (here: inside
`[t0, t0 + W)`) against a fresh key admits all `N` calls, each
returning `(True, 0.0)`; a further request before `t0 + W` is rejected
and leaves the state unchanged; reissued at or past `t0 + W` it is
admitted; and every call first drops exactly the stored timestamps
`≤ now - W`, decides from the pruned count, and appends `now` exactly
when it admits. -/
theorem mem_sliding_window_correct
    (identifier resource : String) (W t0 : ℤ) (rest : List ℤ) (st0 : MemState)
    (hfresh : dget st0 (memKey identifier resource) = none)
    (hin : ∀ u ∈ t0 :: rest, t0 ≤ u ∧ u < t0 + W) :
    memRun identifier resource (t0 :: rest).length W st0 (t0 :: rest) =
      (dset st0 (memKey identifier resource) ⟨t0 :: rest, t0⟩, true)
    ∧ (∀ u : ℤ, u < t0 + W →
        memIsAllowed (dset st0 (memKey identifier resource) ⟨t0 :: rest, t0⟩)
            identifier resource (t0 :: rest).length W u =
          (some (false, max 0 (t0 + W - u)),
           dset st0 (memKey identifier resource) ⟨t0 :: rest, t0⟩))
    ∧ (∀ u : ℤ, t0 + W ≤ u →
        (memIsAllowed (dset st0 (memKey identifier resource) ⟨t0 :: rest, t0⟩)
            identifier resource (t0 :: rest).length W u).1 = some (true, 0))
    ∧ (∀ (st : MemState) (maxRequests : ℕ) (now : ℤ),
        memStored (memIsAllowed st identifier resource maxRequests W now).2
            identifier resource =
          (memStored st identifier resource).filter (fun x => now - W < x)
            ++ (if (memIsAllowed st identifier resource maxRequests W now).1
                  = some (true, 0) then [now] else [])
        ∧ ((memIsAllowed st identifier resource maxRequests W now).1
              = some (true, 0) ↔
            ((memStored st identifier resource).filter
                (fun x => now - W < x)).length < maxRequests)) := by
  refine ⟨?_, ?_, ?_, ?_⟩
  · rw [memRun, memIsAllowed_allowFresh hfresh (by simp)]
    simp only [reduceIte]
    rw [memRun_allowsAll identifier resource (t0 :: rest).length W t0 rest
      (dset st0 (memKey identifier resource) ⟨[t0], t0⟩) [t0] t0
      (dget_dset_self _ _ _)
      (by simp; omega)
      (by
        intro x hx
        have hx0 : x = t0 := by simpa using hx
        rw [hx0]
        exact ⟨le_refl t0, (hin t0 (by simp)).2⟩)
      (fun v hv => hin v (by simp [hv]))]
    rw [dset_dset]
    simp
  · intro u hu
    have hfil : (t0 :: rest).filter (fun x => u - W < x) = t0 :: rest := by
      rw [List.filter_eq_self]
      intro y hy
      have h1 := (hin y hy).1
      simp only [decide_eq_true_eq]
      omega
    rw [memIsAllowed_reject (dget_dset_self _ _ _) hfil (le_refl _)]
    rw [dset_dset]
  · intro u hu
    have hlt : ((t0 :: rest).filter (fun x => u - W < x)).length
        < (t0 :: rest).length := by
      have hdrop : (t0 :: rest).filter (fun x => u - W < x)
          = rest.filter (fun x => u - W < x) := by
        rw [List.filter_cons]
        have : ¬ (u - W < t0) := by omega
        simp [this]
      rw [hdrop]
      calc (rest.filter (fun x => u - W < x)).length
          ≤ rest.length := List.length_filter_le _ _
        _ < (t0 :: rest).length := by simp
    rw [memIsAllowed_allowStep (dget_dset_self _ _ _) hlt]
  · intro st maxRequests now
    exact mem_step_stored st identifier resource maxRequests W now

/-- Witness for C1 at the spec scenario: three requests at times 0, 1, 2
with `max_requests = 3`, `window_seconds = 60`; a fourth request at 30 is
rejected with `retry_after = 30`; reissued at 60 it is admitted. -/
theorem mem_sliding_window_correct_witness :
    memRun "user:1" "command:weather" 3 60 [] [0, 1, 2] =
      (dset [] (memKey "user:1" "command:weather") ⟨[0, 1, 2], 0⟩, true)
    ∧ memIsAllowed (dset [] (memKey "user:1" "command:weather") ⟨[0, 1, 2], 0⟩)
        "user:1" "command:weather" 3 60 30
        = (some (false, 30),
           dset [] (memKey "user:1" "command:weather") ⟨[0, 1, 2], 0⟩)
    ∧ (memIsAllowed (dset [] (memKey "user:1" "command:weather") ⟨[0, 1, 2], 0⟩)
        "user:1" "command:weather" 3 60 60).1 = some (true, 0) := by
  have h := mem_sliding_window_correct "user:1" "command:weather" 60 0 [1, 2] []
    (by decide) (by decide)
  refine ⟨h.1, ?_, h.2.2.1 60 (by decide)⟩
  have h2 := h.2.1 30 (by decide)
  simpa using h2

/-! ### Evaluation lemmas for the persistent limiter -/

theorem dbIsAllowed_fresh {db : DbState} {identifier resource : String}
    {maxRequests : ℕ} {W now : ℤ}
    (h : dbStored db identifier resource = none) :
    dbIsAllowed db identifier resource maxRequests W now =
      ((true, 0), db ++ [⟨identifier, resource, 1, now + W⟩]) := by
  simp [dbIsAllowed, h]

theorem dbIsAllowed_reset {db : DbState} {identifier resource : String}
    {maxRequests : ℕ} {W now : ℤ} {row : RateLimitRow}
    (h : dbStored db identifier resource = some row)
    (hlt : row.resetAt < now) :
    dbIsAllowed db identifier resource maxRequests W now =
      ((true, 0),
       updateFirst (rowMatches identifier resource)
         (fun r => { r with requestsCount := 1, resetAt := now + W }) db) := by
  simp [dbIsAllowed, h, hlt]

theorem dbIsAllowed_reject {db : DbState} {identifier resource : String}
    {maxRequests : ℕ} {W now : ℤ} {row : RateLimitRow}
    (h : dbStored db identifier resource = some row)
    (hge : ¬ row.resetAt < now)
    (hcnt : maxRequests ≤ row.requestsCount) :
    dbIsAllowed db identifier resource maxRequests W now =
      ((false, max 0 (row.resetAt - now)), db) := by
  have harith : W - (now - (row.resetAt - W)) = row.resetAt - now := by ring
  simp [dbIsAllowed, h, hge, hcnt, harith]

theorem dbIsAllowed_incr {db : DbState} {identifier resource : String}
    {maxRequests : ℕ} {W now : ℤ} {row : RateLimitRow}
    (h : dbStored db identifier resource = some row)
    (hge : ¬ row.resetAt < now)
    (hcnt : row.requestsCount < maxRequests) :
    dbIsAllowed db identifier resource maxRequests W now =
      ((true, 0),
       updateFirst (rowMatches identifier resource)
         (fun r => { r with requestsCount := r.requestsCount + 1 }) db) := by
  simp [dbIsAllowed, h, hge, Nat.not_le.mpr hcnt]

theorem rowMatches_self (identifier resource : String) (c : ℕ) (t : ℤ) :
    rowMatches identifier resource ⟨identifier, resource, c, t⟩ = true := by
  simp [rowMatches]

theorem dbStored_updateFirst (identifier resource : String)
    (f : RateLimitRow → RateLimitRow)
    (hf : ∀ x, rowMatches identifier resource (f x)
      = rowMatches identifier resource x) (db : DbState) :
    dbStored (updateFirst (rowMatches identifier resource) f db)
        identifier resource
      = (dbStored db identifier resource).map f := by
  unfold dbStored
  exact find?_updateFirst hf db

/-- Claim C2 counterexample: the claim promises that a check arriving at
or after `reset_at` resets the row and admits.  With the row
`{count = 1, reset_at = 60}` and `max_requests = 1`, a check at exactly
`now = reset_at = 60` is instead rejected (with `retry_after = 0`) and
the row is left unchanged, because the code resets only when
`now > reset_at` holds strictly. -/
theorem db_reset_boundary_counterexample :
    dbIsAllowed [⟨"u", "cmd", 1, 60⟩] "u" "cmd" 1 60 60 =
      ((false, 0), [⟨"u", "cmd", 1, 60⟩]) := by decide

/-- Claim C2 (amended): the persistent limiter creates a missing row with
`count = 1`, `reset_at = now + window_seconds` and admits; when `now`
is strictly after `reset_at` it resets the row to `count = 1` with a
fresh `reset_at` and admits (rejected checks never change the row, so
this holds regardless of how many rejections happened in between); when
`now ≤ reset_at` it rejects without changing the table if
`count ≥ max_requests`, and otherwise increments `count` and admits. -/
theorem db_fixed_window (db : DbState) (identifier resource : String)
    (maxRequests : ℕ) (W now : ℤ) :
    (dbStored db identifier resource = none →
      dbIsAllowed db identifier resource maxRequests W now =
        ((true, 0), db ++ [⟨identifier, resource, 1, now + W⟩])
      ∧ dbStored (dbIsAllowed db identifier resource maxRequests W now).2
          identifier resource = some ⟨identifier, resource, 1, now + W⟩)
    ∧ (∀ row, dbStored db identifier resource = some row →
        row.resetAt < now →
        (dbIsAllowed db identifier resource maxRequests W now).1 = (true, 0)
        ∧ dbStored (dbIsAllowed db identifier resource maxRequests W now).2
            identifier resource =
          some { row with requestsCount := 1, resetAt := now + W })
    ∧ (∀ row, dbStored db identifier resource = some row →
        ¬ row.resetAt < now → maxRequests ≤ row.requestsCount →
        dbIsAllowed db identifier resource maxRequests W now =
          ((false, max 0 (row.resetAt - now)), db))
    ∧ (∀ row, dbStored db identifier resource = some row →
        ¬ row.resetAt < now → row.requestsCount < maxRequests →
        (dbIsAllowed db identifier resource maxRequests W now).1 = (true, 0)
        ∧ dbStored (dbIsAllowed db identifier resource maxRequests W now).2
            identifier resource =
          some { row with requestsCount := row.requestsCount + 1 }) := by
  refine ⟨?_, ?_, ?_, ?_⟩
  · intro h
    rw [dbIsAllowed_fresh h]
    refine ⟨rfl, ?_⟩
    unfold dbStored at h ⊢
    rw [find?_append_none h]
    simp [List.find?_cons, rowMatches_self]
  · intro row h hlt
    rw [dbIsAllowed_reset h hlt]
    refine ⟨rfl, ?_⟩
    rw [dbStored_updateFirst identifier resource
      (fun r => { r with requestsCount := 1, resetAt := now + W })
      (fun x => rfl) db, h]
    rfl
  · intro row h hge hcnt
    exact dbIsAllowed_reject h hge hcnt
  · intro row h hge hcnt
    rw [dbIsAllowed_incr h hge hcnt]
    refine ⟨rfl, ?_⟩
    rw [dbStored_updateFirst identifier resource
      (fun r => { r with requestsCount := r.requestsCount + 1 })
      (fun x => rfl) db, h]
    rfl

/-- Witness for C2 at concrete inputs: row creation, strict-boundary
reset, rejection leaving the table unchanged, and increment. -/
theorem db_fixed_window_witness :
    dbIsAllowed [] "g" "cmd" 2 60 0 = ((true, 0), [⟨"g", "cmd", 1, 60⟩])
    ∧ (dbIsAllowed [⟨"g", "cmd", 2, 60⟩] "g" "cmd" 2 60 61).1 = (true, 0)
    ∧ dbStored (dbIsAllowed [⟨"g", "cmd", 2, 60⟩] "g" "cmd" 2 60 61).2 "g" "cmd"
        = some ⟨"g", "cmd", 1, 121⟩
    ∧ dbIsAllowed [⟨"g", "cmd", 2, 60⟩] "g" "cmd" 2 60 10 =
        ((false, 50), [⟨"g", "cmd", 2, 60⟩])
    ∧ (dbIsAllowed [⟨"g", "cmd", 1, 60⟩] "g" "cmd" 2 60 10).1 = (true, 0) := by
  have h1 := (db_fixed_window [] "g" "cmd" 2 60 0).1 (by decide)
  have h2 := (db_fixed_window [⟨"g", "cmd", 2, 60⟩] "g" "cmd" 2 60 61).2.1
    ⟨"g", "cmd", 2, 60⟩ (by decide) (by decide)
  have h3 := (db_fixed_window [⟨"g", "cmd", 2, 60⟩] "g" "cmd" 2 60 10).2.2.1
    ⟨"g", "cmd", 2, 60⟩ (by decide) (by decide) (by decide)
  have h4 := (db_fixed_window [⟨"g", "cmd", 1, 60⟩] "g" "cmd" 2 60 10).2.2.2
    ⟨"g", "cmd", 1, 60⟩ (by decide) (by decide) (by decide)
  exact ⟨h1.1, h2.1, h2.2, by simpa using h3, h4.1⟩

/-- Claim C3: the hybrid limiter returns the in-memory rejection verbatim
and leaves the database untouched when the in-memory layer rejects (the
table is an arbitrary `db` here and is returned unchanged, so the
persistent check is never consulted); when the in-memory layer admits
and `use_db` is set, a persistent rejection becomes the overall result
while the in-memory admission (its updated dict `mem'`) is kept; and
when both layers admit, or the in-memory layer admits with `use_db`
false, the result is `(True, 0.0)`. -/
theorem hybrid_short_circuit (mem : MemState) (db : DbState)
    (identifier resource : String) (maxRequests : ℕ) (W : ℤ)
    (useDb : Bool) (nowMem nowDb : ℤ) :
    (∀ r mem',
      memIsAllowed mem identifier resource maxRequests W nowMem
          = (some (false, r), mem') →
      hybridIsAllowed ⟨mem, db⟩ identifier resource maxRequests W useDb
          nowMem nowDb
        = (some (false, r), ⟨mem', db⟩))
    ∧ (∀ rm mem' rd db',
        memIsAllowed mem identifier resource maxRequests W nowMem
            = (some (true, rm), mem') →
        useDb = true →
        dbIsAllowed db identifier resource maxRequests W nowDb
            = ((false, rd), db') →
        hybridIsAllowed ⟨mem, db⟩ identifier resource maxRequests W useDb
            nowMem nowDb
          = (some (false, rd), ⟨mem', db'⟩))
    ∧ (∀ rm mem' rd db',
        memIsAllowed mem identifier resource maxRequests W nowMem
            = (some (true, rm), mem') →
        useDb = true →
        dbIsAllowed db identifier resource maxRequests W nowDb
            = ((true, rd), db') →
        hybridIsAllowed ⟨mem, db⟩ identifier resource maxRequests W useDb
            nowMem nowDb
          = (some (true, 0), ⟨mem', db'⟩))
    ∧ (∀ rm mem',
        memIsAllowed mem identifier resource maxRequests W nowMem
            = (some (true, rm), mem') →
        useDb = false →
        hybridIsAllowed ⟨mem, db⟩ identifier resource maxRequests W useDb
            nowMem nowDb
          = (some (true, 0), ⟨mem', db⟩)) := by
  refine ⟨?_, ?_, ?_, ?_⟩
  · intro r mem' hmem
    simp [hybridIsAllowed, hmem]
  · intro rm mem' rd db' hmem huse hdb
    subst huse
    simp [hybridIsAllowed, hmem, hdb]
  · intro rm mem' rd db' hmem huse hdb
    subst huse
    simp [hybridIsAllowed, hmem, hdb]
  · intro rm mem' hmem huse
    subst huse
    simp [hybridIsAllowed, hmem]

/-- Witness for C3: an in-memory rejection short-circuits past an
arbitrary table; an in-memory admission followed by a persistent
rejection yields the persistent rejection while keeping the appended
in-memory timestamp; both-admit and no-db cases yield `(True, 0.0)`. -/
theorem hybrid_short_circuit_witness :
    hybridIsAllowed ⟨[("u:cmd", ⟨[0, 1], 0⟩)], [⟨"x", "y", 5, 99⟩]⟩
        "u" "cmd" 2 60 true 30 30
      = (some (false, 30), ⟨[("u:cmd", ⟨[0, 1], 0⟩)], [⟨"x", "y", 5, 99⟩]⟩)
    ∧ hybridIsAllowed ⟨[], [⟨"u", "cmd", 2, 60⟩]⟩ "u" "cmd" 2 60 true 10 10
      = (some (false, 50), ⟨[("u:cmd", ⟨[10], 10⟩)], [⟨"u", "cmd", 2, 60⟩]⟩)
    ∧ hybridIsAllowed ⟨[], []⟩ "u" "cmd" 2 60 true 10 10
      = (some (true, 0), ⟨[("u:cmd", ⟨[10], 10⟩)], [⟨"u", "cmd", 1, 70⟩]⟩)
    ∧ hybridIsAllowed ⟨[], [⟨"u", "cmd", 2, 60⟩]⟩ "u" "cmd" 2 60 false 10 10
      = (some (true, 0), ⟨[("u:cmd", ⟨[10], 10⟩)], [⟨"u", "cmd", 2, 60⟩]⟩) := by
  have h1 := hybrid_short_circuit [("u:cmd", ⟨[0, 1], 0⟩)] [⟨"x", "y", 5, 99⟩]
    "u" "cmd" 2 60 true 30 30
  have h2 := hybrid_short_circuit [] [⟨"u", "cmd", 2, 60⟩] "u" "cmd" 2 60 true 10 10
  have h3 := hybrid_short_circuit [] [] "u" "cmd" 2 60 true 10 10
  have h4 := hybrid_short_circuit [] [⟨"u", "cmd", 2, 60⟩] "u" "cmd" 2 60 false 10 10
  exact ⟨h1.1 30 [("u:cmd", ⟨[0, 1], 0⟩)] (by decide),
    h2.2.1 0 [("u:cmd", ⟨[10], 10⟩)] 50 [⟨"u", "cmd", 2, 60⟩] (by decide) rfl
      (by decide),
    h3.2.2.1 0 [("u:cmd", ⟨[10], 10⟩)] 0 [⟨"u", "cmd", 1, 70⟩] (by decide) rfl
      (by decide),
    h4.2.2.2 0 [("u:cmd", ⟨[10], 10⟩)] (by decide) rfl⟩

/-! ### check_rate_limit -/

theorem memIsAllowed_isSome (st : MemState) (identifier resource : String)
    (maxRequests : ℕ) (W now : ℤ) (hmax : 1 ≤ maxRequests) :
    (memIsAllowed st identifier resource maxRequests W now).1 ≠ none := by
  rcases hd : dget st (memKey identifier resource) with _ | e
  · rw [memIsAllowed_allowFresh hd (by omega)]
    simp
  · obtain ⟨pre, ws⟩ := e
    rcases hfil : pre.filter (fun x => now - W < x) with _ | ⟨o, t⟩
    · rw [memIsAllowed_allowStep hd (by rw [hfil]; simp; omega)]
      simp
    · by_cases hc : maxRequests ≤ (o :: t).length
      · rw [memIsAllowed_reject hd hfil hc]
        simp
      · rw [memIsAllowed_allowStep hd (by rw [hfil]; omega)]
        simp

/-- Claim C4 counterexample: the claim promises that whenever no
`RateLimitExceeded` is raised, `check_rate_limit` returns a boolean.
With `max_requests = 0` on a fresh pair the in-memory reject path indexes
an empty list, so the call raises an `IndexError` instead — neither a
`RateLimitExceeded` nor a boolean return. -/
theorem check_rate_limit_crash_counterexample :
    checkRateLimit ⟨[], []⟩ "u" "cmd" 0 60 true true 0 0
      = (.raised .indexError, ⟨[("u:cmd", ⟨[], 0⟩)], []⟩) := by decide

/-- Claim C4 (amended): for `max_requests ≥ 1` (ruling out the
`max_requests = 0` empty-list `IndexError`), `check_rate_limit` raises
`RateLimitExceeded` carrying the retry_after and resource exactly when
the hybrid limiter rejects and `raise_exception` is true; otherwise it
returns the limiter boolean (and it passes the hybrid state through
unchanged). -/
theorem check_rate_limit_raises (st : HybridState) (identifier resource : String)
    (maxRequests : ℕ) (W : ℤ) (raiseException useDb : Bool) (nowMem nowDb : ℤ)
    (hmax : 1 ≤ maxRequests) :
    (checkRateLimit st identifier resource maxRequests W raiseException useDb
        nowMem nowDb).2
      = (hybridIsAllowed st identifier resource maxRequests W useDb
          nowMem nowDb).2
    ∧ (∀ r st',
        hybridIsAllowed st identifier resource maxRequests W useDb nowMem nowDb
            = (some (false, r), st') →
        raiseException = true →
        (checkRateLimit st identifier resource maxRequests W raiseException
            useDb nowMem nowDb).1
          = .raised (.rateLimitExceeded ("Rate limit exceeded for " ++ resource)
              r resource))
    ∧ (∀ r st',
        hybridIsAllowed st identifier resource maxRequests W useDb nowMem nowDb
            = (some (false, r), st') →
        raiseException = false →
        (checkRateLimit st identifier resource maxRequests W raiseException
            useDb nowMem nowDb).1 = .ok false)
    ∧ (∀ r st',
        hybridIsAllowed st identifier resource maxRequests W useDb nowMem nowDb
            = (some (true, r), st') →
        (checkRateLimit st identifier resource maxRequests W raiseException
            useDb nowMem nowDb).1 = .ok true)
    ∧ (hybridIsAllowed st identifier resource maxRequests W useDb
        nowMem nowDb).1 ≠ none := by
  have hne : (hybridIsAllowed st identifier resource maxRequests W useDb
      nowMem nowDb).1 ≠ none := by
    rcases hm : memIsAllowed st.mem identifier resource maxRequests W nowMem
      with ⟨res, mem'⟩
    rcases res with _ | ⟨b, r0⟩
    · have : (memIsAllowed st.mem identifier resource maxRequests W nowMem).1
          = none := by
        rw [hm]
      exact absurd this
        (memIsAllowed_isSome st.mem identifier resource maxRequests W nowMem hmax)
    · rcases b with _ | _
      · simp [hybridIsAllowed, hm]
      · rcases useDb with _ | _
        · simp [hybridIsAllowed, hm]
        · rcases hdb : dbIsAllowed st.db identifier resource maxRequests W nowDb
            with ⟨⟨bb, rd⟩, db'⟩
          rcases bb with _ | _ <;> simp [hybridIsAllowed, hm, hdb]
  rcases hh : hybridIsAllowed st identifier resource maxRequests W useDb
    nowMem nowDb with ⟨res, stH⟩
  rcases res with _ | ⟨b, r0⟩
  · exact absurd (by rw [hh]) hne
  refine ⟨?_, ?_, ?_, ?_, by simp⟩
  · rcases b with _ | _ <;> rcases raiseException with _ | _ <;>
      simp [checkRateLimit, hh]
  · intro r st' heq hre
    simp only [Prod.mk.injEq, Option.some.injEq] at heq
    obtain ⟨⟨hb, hr⟩, hst⟩ := heq
    subst hb
    subst hr
    subst hre
    simp [checkRateLimit, hh]
  · intro r st' heq hre
    simp only [Prod.mk.injEq, Option.some.injEq] at heq
    obtain ⟨⟨hb, hr⟩, hst⟩ := heq
    subst hb
    subst hre
    simp [checkRateLimit, hh]
  · intro r st' heq
    simp only [Prod.mk.injEq, Option.some.injEq] at heq
    obtain ⟨⟨hb, hr⟩, hst⟩ := heq
    subst hb
    simp [checkRateLimit, hh]

/-- Witness for C4: a rejected check raises `RateLimitExceeded` with the
retry_after and resource when `raise_exception` is set, returns `False`
when it is not, and an admitted check returns `True`. -/
theorem check_rate_limit_raises_witness :
    (checkRateLimit ⟨[("u:cmd", ⟨[0, 1], 0⟩)], []⟩ "u" "cmd" 2 60 true true
        30 30).1
      = .raised (.rateLimitExceeded "Rate limit exceeded for cmd" 30 "cmd")
    ∧ (checkRateLimit ⟨[("u:cmd", ⟨[0, 1], 0⟩)], []⟩ "u" "cmd" 2 60 false true
        30 30).1 = .ok false
    ∧ (checkRateLimit ⟨[], []⟩ "u" "cmd" 2 60 true true 10 10).1 = .ok true := by
  have h1 := check_rate_limit_raises ⟨[("u:cmd", ⟨[0, 1], 0⟩)], []⟩ "u" "cmd"
    2 60 true true 30 30 (by decide)
  have h2 := check_rate_limit_raises ⟨[("u:cmd", ⟨[0, 1], 0⟩)], []⟩ "u" "cmd"
    2 60 false true 30 30 (by decide)
  have h3 := check_rate_limit_raises ⟨[], []⟩ "u" "cmd" 2 60 true true 10 10
    (by decide)
  exact ⟨h1.2.1 30 ⟨[("u:cmd", ⟨[0, 1], 0⟩)], []⟩ (by decide) rfl,
    h2.2.2.1 30 ⟨[("u:cmd", ⟨[0, 1], 0⟩)], []⟩ (by decide) rfl,
    h3.2.2.2.1 0 ⟨[("u:cmd", ⟨[10], 10⟩)], [⟨"u", "cmd", 1, 70⟩]⟩ (by decide)⟩

/-! ### Rejection inversion lemmas -/

theorem memIsAllowed_crash_fresh {st : MemState} {identifier resource : String}
    {W now : ℤ} (h : dget st (memKey identifier resource) = none) :
    memIsAllowed st identifier resource 0 W now =
      (none, dset st (memKey identifier resource) ⟨[], now⟩) := by
  simp [memIsAllowed, h]

theorem memIsAllowed_crash {st : MemState} {identifier resource : String}
    {W now : ℤ} {pre : List ℤ} {ws : ℤ}
    (h : dget st (memKey identifier resource) = some ⟨pre, ws⟩)
    (hfil : pre.filter (fun x => now - W < x) = []) :
    memIsAllowed st identifier resource 0 W now =
      (none, dset st (memKey identifier resource) ⟨[], ws⟩) := by
  simp [memIsAllowed, h, hfil]

theorem filter_length_eq {α : Type} {p : α → Bool} :
    ∀ {l : List α}, (l.filter p).length = l.length → l.filter p = l := by
  intro l
  induction l with
  | nil => intro _; rfl
  | cons a l ih =>
    intro h
    rcases hp : p a with _ | _
    · exfalso
      rw [List.filter_cons, hp] at h
      simp at h
      have hle := List.length_filter_le p l
      omega
    · rw [List.filter_cons, hp] at h ⊢
      simp only [if_pos, List.length_cons] at h ⊢
      rw [ih (by omega)]

theorem memIsAllowed_reject_inversion {st : MemState}
    {identifier resource : String} {maxRequests : ℕ} {W now rv : ℤ}
    {st' : MemState}
    (h : memIsAllowed st identifier resource maxRequests W now
      = (some (false, rv), st')) :
    ∃ pre ws oldest tail,
      dget st (memKey identifier resource) = some ⟨pre, ws⟩
      ∧ pre.filter (fun x => now - W < x) = oldest :: tail
      ∧ maxRequests ≤ (oldest :: tail).length
      ∧ now - W < oldest
      ∧ rv = oldest + W - now
      ∧ 0 < rv
      ∧ st' = dset st (memKey identifier resource) ⟨oldest :: tail, ws⟩ := by
  rcases hd : dget st (memKey identifier resource) with _ | ⟨pre, ws⟩
  · by_cases hmax : maxRequests = 0
    · subst hmax
      rw [memIsAllowed_crash_fresh hd] at h
      simp at h
    · rw [memIsAllowed_allowFresh hd (by omega)] at h
      simp at h
  · rcases hfil : pre.filter (fun x => now - W < x) with _ | ⟨oldest, tail⟩
    · by_cases hmax : maxRequests = 0
      · subst hmax
        rw [memIsAllowed_crash hd hfil] at h
        simp at h
      · rw [memIsAllowed_allowStep hd (by rw [hfil]; simp; omega)] at h
        simp at h
    · by_cases hc : maxRequests ≤ (oldest :: tail).length
      · rw [memIsAllowed_reject hd hfil hc] at h
        simp only [Prod.mk.injEq, Option.some.injEq] at h
        obtain ⟨⟨_, hr⟩, hst⟩ := h
        have hmem : oldest ∈ pre.filter (fun x => now - W < x) := by
          rw [hfil]
          simp
        have hgt : now - W < oldest := by
          have := List.of_mem_filter hmem
          simpa using this
        refine ⟨pre, ws, oldest, tail, rfl, hfil, hc, hgt, ?_, ?_, hst.symm⟩
        · rw [← hr]
          omega
        · omega
      · rw [memIsAllowed_allowStep hd (by rw [hfil]; omega)] at h
        simp at h

theorem dbIsAllowed_reject_inversion {db : DbState}
    {identifier resource : String} {maxRequests : ℕ} {W now rv : ℤ}
    {db' : DbState}
    (h : dbIsAllowed db identifier resource maxRequests W now
      = ((false, rv), db')) :
    ∃ row, dbStored db identifier resource = some row
      ∧ ¬ row.resetAt < now
      ∧ maxRequests ≤ row.requestsCount
      ∧ rv = row.resetAt - now
      ∧ 0 ≤ rv
      ∧ db' = db := by
  rcases hd : dbStored db identifier resource with _ | row
  · rw [dbIsAllowed_fresh hd] at h
    simp at h
  · by_cases h1 : row.resetAt < now
    · rw [dbIsAllowed_reset hd h1] at h
      simp at h
    · by_cases h2 : maxRequests ≤ row.requestsCount
      · rw [dbIsAllowed_reject hd h1 h2] at h
        simp only [Prod.mk.injEq] at h
        obtain ⟨⟨_, hr⟩, hdb⟩ := h
        refine ⟨row, rfl, h1, h2, ?_, ?_, hdb.symm⟩
        · rw [← hr]
          omega
        · omega
      · rw [dbIsAllowed_incr hd h1 (by omega)] at h
        simp at h

/-- Claim C5 counterexample: the claim promises that `retry_after`
reaches 0 exactly at the next admissible instant.  For the persistent
limiter with the row `{count = 2, reset_at = 30}` and `max_requests = 2`,
a rejection at `t1 = 10` returns `retry_after = 20`, yet the check at
`t1 + 20 = 30` — the instant where `retry_after` reaches 0 — is still
rejected (returning `retry_after = 0`); admission begins only strictly
after `reset_at`. -/
theorem db_retry_zero_not_admissible_counterexample :
    dbIsAllowed [⟨"alice", "weather", 2, 30⟩] "alice" "weather" 2 30 10
      = ((false, 20), [⟨"alice", "weather", 2, 30⟩])
    ∧ dbIsAllowed [⟨"alice", "weather", 2, 30⟩] "alice" "weather" 2 30 30
      = ((false, 0), [⟨"alice", "weather", 2, 30⟩]) := by decide

/-- Claim C5 (amended): on any rejection both limiters return a
non-negative `retry_after` (strictly positive for the in-memory one).
Across two consecutive rejections of the same pair at `t1 < t2` with the
same parameters and no intervening admissions or resets, `retry_after`
strictly decreases.  For the in-memory limiter a check issued exactly at
`t1 + retry_after` is admitted; for the persistent limiter the check at
`t1 + retry_after` (= `reset_at`) is still rejected with `retry_after`
0, and admission begins only strictly after that instant.  The in-memory
statements assume the stored list has at most `max_requests` timestamps,
an invariant every call preserves (also proved here). -/
theorem retry_after_monotone (identifier resource : String)
    (maxRequests : ℕ) (W : ℤ) :
    (∀ (st st' : MemState) (now rv : ℤ),
      memIsAllowed st identifier resource maxRequests W now
          = (some (false, rv), st') → 0 < rv)
    ∧ (∀ (db db' : DbState) (now rv : ℤ),
      dbIsAllowed db identifier resource maxRequests W now
          = ((false, rv), db') → 0 ≤ rv)
    ∧ (∀ (st st1 st2 : MemState) (t1 t2 r1 r2 : ℤ),
        (memStored st identifier resource).length ≤ maxRequests →
        memIsAllowed st identifier resource maxRequests W t1
            = (some (false, r1), st1) →
        memIsAllowed st1 identifier resource maxRequests W t2
            = (some (false, r2), st2) →
        t1 < t2 → 0 < r2 ∧ r2 < r1)
    ∧ (∀ (st : MemState) (now : ℤ),
        (memStored st identifier resource).length ≤ maxRequests →
        (memStored (memIsAllowed st identifier resource maxRequests W now).2
            identifier resource).length ≤ maxRequests)
    ∧ (∀ (st st1 : MemState) (t1 r1 : ℤ),
        (memStored st identifier resource).length ≤ maxRequests →
        memIsAllowed st identifier resource maxRequests W t1
            = (some (false, r1), st1) →
        (memIsAllowed st1 identifier resource maxRequests W (t1 + r1)).1
          = some (true, 0))
    ∧ (∀ (db db1 db2 : DbState) (t1 t2 r1 r2 : ℤ),
        dbIsAllowed db identifier resource maxRequests W t1
            = ((false, r1), db1) →
        dbIsAllowed db1 identifier resource maxRequests W t2
            = ((false, r2), db2) →
        t1 < t2 → db1 = db ∧ r2 < r1)
    ∧ (∀ (db db1 : DbState) (t1 r1 : ℤ),
        dbIsAllowed db identifier resource maxRequests W t1
            = ((false, r1), db1) →
        dbIsAllowed db identifier resource maxRequests W (t1 + r1)
          = ((false, 0), db))
    ∧ (∀ (db db1 : DbState) (t1 r1 t' : ℤ),
        dbIsAllowed db identifier resource maxRequests W t1
            = ((false, r1), db1) →
        t1 + r1 < t' →
        (dbIsAllowed db identifier resource maxRequests W t').1 = (true, 0)) := by
  refine ⟨?_, ?_, ?_, ?_, ?_, ?_, ?_, ?_⟩
  · intro st st' now rv h
    obtain ⟨_, _, _, _, _, _, _, _, _, hpos, _⟩ :=
      memIsAllowed_reject_inversion h
    exact hpos
  · intro db db' now rv h
    obtain ⟨_, _, _, _, _, hnn, _⟩ := dbIsAllowed_reject_inversion h
    exact hnn
  · intro st st1 st2 t1 t2 r1 r2 hLen h1 h2 hlt
    obtain ⟨pre, ws, o1, tl1, hd1, hfil1, hlen1, hgt1, hr1, hpos1, hst1⟩ :=
      memIsAllowed_reject_inversion h1
    obtain ⟨pre2, ws2, o2, tl2, hd2, hfil2, hlen2, hgt2, hr2, hpos2, hst2⟩ :=
      memIsAllowed_reject_inversion h2
    have hpre : memStored st identifier resource = pre := by
      simp [memStored, hd1]
    rw [hpre] at hLen
    have hplen : (o1 :: tl1).length ≤ pre.length := by
      rw [← hfil1]
      exact List.length_filter_le _ _
    subst hst1
    rw [dget_dset_self] at hd2
    have hpre2 : pre2 = o1 :: tl1 := by
      have := (MemEntry.mk.injEq _ _ _ _).mp (Option.some.inj hd2).symm
      exact this.1
    subst hpre2
    have hflen2 : (o2 :: tl2).length ≤ (o1 :: tl1).length := by
      rw [← hfil2]
      exact List.length_filter_le _ _
    have hfeq : (o1 :: tl1).filter (fun x => t2 - W < x) = o1 :: tl1 := by
      apply filter_length_eq
      rw [hfil2]
      simp only [List.length_cons] at hlen1 hlen2 hplen hflen2 hLen ⊢
      omega
    have ho : o2 = o1 := by
      rw [hfeq] at hfil2
      exact (List.cons.injEq _ _ _ _).mp hfil2.symm |>.1
    subst ho
    exact ⟨hpos2, by omega⟩
  · intro st now hLen
    obtain ⟨hst, hiff⟩ :=
      mem_step_stored st identifier resource maxRequests W now
    rw [hst]
    by_cases hadm : (memIsAllowed st identifier resource maxRequests W now).1
        = some (true, 0)
    · rw [if_pos hadm]
      have hflt := hiff.mp hadm
      simp only [List.length_append, List.length_cons, List.length_nil]
      omega
    · rw [if_neg hadm]
      simp only [List.append_nil]
      exact le_trans (List.length_filter_le _ _) hLen
  · intro st st1 t1 r1 hLen h1
    obtain ⟨pre, ws, o1, tl1, hd1, hfil1, hlen1, hgt1, hr1, hpos1, hst1⟩ :=
      memIsAllowed_reject_inversion h1
    have hpre : memStored st identifier resource = pre := by
      simp [memStored, hd1]
    rw [hpre] at hLen
    have hplen : (o1 :: tl1).length ≤ pre.length := by
      rw [← hfil1]
      exact List.length_filter_le _ _
    subst hst1
    have hlt : ((o1 :: tl1).filter (fun x => t1 + r1 - W < x)).length
        < maxRequests := by
      have hnow : t1 + r1 - W = o1 := by omega
      simp [hnow, List.filter_cons]
      have hle := List.length_filter_le (fun x => decide (o1 < x)) tl1
      simp only [List.length_cons] at hlen1 hplen hLen
      omega
    rw [memIsAllowed_allowStep (dget_dset_self _ _ _) hlt]
  · intro db db1 db2 t1 t2 r1 r2 h1 h2 hlt
    obtain ⟨row, hd1, hge1, hcnt1, hr1, hnn1, hdb1⟩ :=
      dbIsAllowed_reject_inversion h1
    obtain ⟨row2, hd2, hge2, hcnt2, hr2, hnn2, hdb2⟩ :=
      dbIsAllowed_reject_inversion h2
    subst hdb1
    have hrow : row2 = row := by
      rw [hd1] at hd2
      exact (Option.some.inj hd2).symm
    subst hrow
    exact ⟨rfl, by omega⟩
  · intro db db1 t1 r1 h1
    obtain ⟨row, hd1, hge1, hcnt1, hr1, hnn1, hdb1⟩ :=
      dbIsAllowed_reject_inversion h1
    have hre : row.resetAt = t1 + r1 := by omega
    rw [dbIsAllowed_reject hd1 (by omega) hcnt1]
    have hz : row.resetAt - (t1 + r1) = 0 := by omega
    rw [hz]
    simp
  · intro db db1 t1 r1 t' h1 hlt
    obtain ⟨row, hd1, hge1, hcnt1, hr1, hnn1, hdb1⟩ :=
      dbIsAllowed_reject_inversion h1
    rw [dbIsAllowed_reset hd1 (by omega)]

/-- Witness for C5: concrete rejections with strictly decreasing positive
retry_after for both limiters, an in-memory admission exactly at
`t1 + retry_after`, and the persistent rejection-with-0 at `reset_at`
followed by admission strictly after it. -/
theorem retry_after_monotone_witness :
    ((0 : ℤ) < 10 ∧ (10 : ℤ) < 20)
    ∧ (memIsAllowed [("alice:weather", ⟨[0, 1], 0⟩)] "alice" "weather"
        2 30 30).1 = some (true, 0)
    ∧ ([⟨"alice", "weather", 2, 30⟩] = ([⟨"alice", "weather", 2, 30⟩] : DbState)
        ∧ (15 : ℤ) < 25)
    ∧ dbIsAllowed [⟨"alice", "weather", 2, 30⟩] "alice" "weather" 2 30 30
        = ((false, 0), [⟨"alice", "weather", 2, 30⟩])
    ∧ (dbIsAllowed [⟨"alice", "weather", 2, 30⟩] "alice" "weather" 2 30 31).1
        = (true, 0) := by
  have h := retry_after_monotone "alice" "weather" 2 30
  refine ⟨h.2.2.1 [("alice:weather", ⟨[0, 1], 0⟩)]
      [("alice:weather", ⟨[0, 1], 0⟩)] [("alice:weather", ⟨[0, 1], 0⟩)]
      10 20 20 10 (by decide) (by decide) (by decide) (by decide),
    ?_,
    h.2.2.2.2.2.1 [⟨"alice", "weather", 2, 30⟩] [⟨"alice", "weather", 2, 30⟩]
      [⟨"alice", "weather", 2, 30⟩] 5 15 25 15 (by decide) (by decide)
      (by decide),
    ?_, ?_⟩
  · have h5 := h.2.2.2.2.1 [("alice:weather", ⟨[0, 1], 0⟩)]
      [("alice:weather", ⟨[0, 1], 0⟩)] 10 20 (by decide) (by decide)
    simpa using h5
  · have h7 := h.2.2.2.2.2.2.1 [⟨"alice", "weather", 2, 30⟩]
      [⟨"alice", "weather", 2, 30⟩] 10 20 (by decide)
    simpa using h7
  · have h8 := h.2.2.2.2.2.2.2 [⟨"alice", "weather", 2, 30⟩]
      [⟨"alice", "weather", 2, 30⟩] 10 20 31 (by decide) (by decide)
    simpa using h8

/-- Claim C6: with a Redis backing store whose operation raises, every
public Cache Manager method swallows the exception and degrades to its
safe default: `get` returns None, `set` returns False, `delete`,
`exists` and `clear` return False, `increment` returns None (whether the
`incrby` itself or the follow-up `expire` raises), and `get_ttl` returns
0. -/
theorem cache_error_degradation (st : CacheState) (client : RedisClient)
    (key : String) (value : PyVal) (ttlArg : Option ℤ) (amount : ℤ)
    (now : ℤ) (e : CacheErr)
    (hr : st.useRedis = true) (hc : st.redisClient = some client) :
    (client.rget key = .error e → (cacheGet st key now).1 = none)
    ∧ (client.rsetex key (ttlArg.getD st.defaultTtl) (pyToJson value)
          = .error e →
        (cacheSet st key value ttlArg now).1 = false)
    ∧ (client.rdelete key = .error e → (cacheDelete st key).1 = false)
    ∧ (client.rexistsCount key = .error e → (cacheExists st key now).1 = false)
    ∧ (client.rflushdb () = .error e → (cacheClear st).1 = false)
    ∧ (client.rincrby key amount = .error e →
        (cacheIncrement st key amount ttlArg now).1 = none)
    ∧ (0 < ttlArg.getD st.defaultTtl →
        client.rexpire key (ttlArg.getD st.defaultTtl) = .error e →
        (cacheIncrement st key amount ttlArg now).1 = none)
    ∧ (client.rttl key = .error e → (cacheGetTtl st key now).1 = 0) := by
  refine ⟨?_, ?_, ?_, ?_, ?_, ?_, ?_, ?_⟩
  · intro h
    simp [cacheGet, hr, hc, h]
  · intro h
    simp [cacheSet, hr, hc, h]
  · intro h
    simp [cacheDelete, hr, hc, h]
  · intro h
    simp [cacheExists, hr, hc, h]
  · intro h
    simp [cacheClear, hr, hc, h]
  · intro h
    simp [cacheIncrement, hr, hc, h]
  · intro hpos h
    rcases hi : client.rincrby key amount with e' | n
    · simp [cacheIncrement, hr, hc, hi]
    · simp [cacheIncrement, hr, hc, hi, hpos, h]
  · intro h
    simp [cacheGetTtl, hr, hc, h]

/-- Witness for C6: with a client every operation of which raises, all
public methods return their safe defaults. -/
theorem cache_error_degradation_witness :
    (cacheGet ⟨true, some failingClient, [], 3600⟩ "k" 0).1 = none
    ∧ (cacheSet ⟨true, some failingClient, [], 3600⟩ "k" (.str "v")
        (some 60) 0).1 = false
    ∧ (cacheDelete ⟨true, some failingClient, [], 3600⟩ "k").1 = false
    ∧ (cacheExists ⟨true, some failingClient, [], 3600⟩ "k" 0).1 = false
    ∧ (cacheClear ⟨true, some failingClient, [], 3600⟩).1 = false
    ∧ (cacheIncrement ⟨true, some failingClient, [], 3600⟩ "k" 1 none 0).1
        = none
    ∧ (cacheIncrement ⟨true, some failingClient, [], 3600⟩ "k" 1 (some 60) 0).1
        = none
    ∧ (cacheGetTtl ⟨true, some failingClient, [], 3600⟩ "k" 0).1 = 0 := by
  have h1 := cache_error_degradation ⟨true, some failingClient, [], 3600⟩
    failingClient "k" (.str "v") (some 60) 1 0 ⟨"connection lost"⟩ rfl rfl
  have h2 := cache_error_degradation ⟨true, some failingClient, [], 3600⟩
    failingClient "k" (.str "v") none 1 0 ⟨"connection lost"⟩ rfl rfl
  exact ⟨h1.1 rfl, h1.2.1 rfl, h1.2.2.1 rfl, h1.2.2.2.1 rfl, h1.2.2.2.2.1 rfl,
    h2.2.2.2.2.2.1 rfl,
    h1.2.2.2.2.2.2.1 (by decide) rfl,
    h1.2.2.2.2.2.2.2 rfl⟩

/-- Claim C7: on the in-memory cache backend, after a successful
`set(k, v, ttl = t)` at time `tSet`, a `get(k)` strictly before
`tSet + t` returns `v` (leaving the state alone), and a `get(k)`
strictly after `tSet + t` is a miss that returns None and deletes the
stale entry from the cache map. -/
theorem memory_cache_ttl (st : CacheState) (key : String) (value : PyVal)
    (t tSet tGet1 tGet2 : ℤ)
    (hmem : st.useRedis = false) (ht : 0 < t) :
    (cacheSet st key value (some t) tSet).1 = true
    ∧ (tGet1 < tSet + t →
        cacheGet (cacheSet st key value (some t) tSet).2 key tGet1
          = (some value, (cacheSet st key value (some t) tSet).2))
    ∧ (tSet + t < tGet2 →
        cacheGet (cacheSet st key value (some t) tSet).2 key tGet2
          = (none,
             withMemory (cacheSet st key value (some t) tSet).2
               (ddel (cacheSet st key value (some t) tSet).2.memoryCache key))
        ∧ dget (ddel (cacheSet st key value (some t) tSet).2.memoryCache key)
            key = none) := by
  have hset : cacheSet st key value (some t) tSet =
      (true, withMemory st (dset st.memoryCache key ⟨value, tSet + t⟩)) := by
    simp [cacheSet, hmem, withMemory]
  refine ⟨by rw [hset], ?_, ?_⟩
  · intro h1
    rw [hset]
    simp only [cacheGet, withMemory, hmem, dget_dset_self]
    rw [if_pos h1]
  · intro h2
    rw [hset]
    refine ⟨?_, dget_ddel_self _ _⟩
    simp only [cacheGet, withMemory, hmem, dget_dset_self]
    rw [if_neg (by omega)]

/-- Witness for C7: `set("k", "v", ttl = 1)` at time 0; a read at time 0
returns `"v"`; a read at time 2 misses and removes the entry. -/
theorem memory_cache_ttl_witness :
    (cacheSet ⟨false, none, [], 3600⟩ "k" (.str "v") (some 1) 0).1 = true
    ∧ cacheGet (cacheSet ⟨false, none, [], 3600⟩ "k" (.str "v") (some 1) 0).2
        "k" 0
      = (some (.str "v"),
         (cacheSet ⟨false, none, [], 3600⟩ "k" (.str "v") (some 1) 0).2)
    ∧ (cacheGet (cacheSet ⟨false, none, [], 3600⟩ "k" (.str "v") (some 1) 0).2
        "k" 2).1 = none
    ∧ dget (ddel (cacheSet ⟨false, none, [], 3600⟩ "k" (.str "v")
        (some 1) 0).2.memoryCache "k") "k" = none := by
  have h := memory_cache_ttl ⟨false, none, [], 3600⟩ "k" (.str "v") 1 0 0 2
    rfl (by decide)
  have h3 := h.2.2 (by decide)
  exact ⟨h.1, h.2.1 (by decide), by rw [h3.1], h3.2⟩

/-- Claim C10: on the in-memory cache backend, `increment(key, amount,
ttl)` never raises and always returns the stored number: an absent key
or a non-numeric current value is overwritten with `amount`; an int or
float current value becomes `current + amount`; and in every case the
entry expiry is reset to `now + ttl` (with `ttl` defaulting to the
manager default when None). -/
theorem memory_increment (st : CacheState) (key : String) (amount : ℤ)
    (ttlArg : Option ℤ) (now : ℤ) (hmem : st.useRedis = false) :
    ((cacheIncrement st key amount ttlArg now).1).isSome = true
    ∧ (dget st.memoryCache key = none →
        cacheIncrement st key amount ttlArg now
          = (some (.int amount),
             withMemory st (dset st.memoryCache key
               ⟨.int amount, now + ttlArg.getD st.defaultTtl⟩)))
    ∧ (∀ entry n, dget st.memoryCache key = some entry →
        entry.value = .int n →
        cacheIncrement st key amount ttlArg now
          = (some (.int (n + amount)),
             withMemory st (dset st.memoryCache key
               ⟨.int (n + amount), now + ttlArg.getD st.defaultTtl⟩)))
    ∧ (∀ entry x, dget st.memoryCache key = some entry →
        entry.value = .float x →
        cacheIncrement st key amount ttlArg now
          = (some (.float (x + amount)),
             withMemory st (dset st.memoryCache key
               ⟨.float (x + amount), now + ttlArg.getD st.defaultTtl⟩)))
    ∧ (∀ entry s, dget st.memoryCache key = some entry →
        entry.value = .str s →
        cacheIncrement st key amount ttlArg now
          = (some (.int amount),
             withMemory st (dset st.memoryCache key
               ⟨.int amount, now + ttlArg.getD st.defaultTtl⟩)))
    ∧ (∀ entry, dget st.memoryCache key = some entry →
        entry.value = .pyNone →
        cacheIncrement st key amount ttlArg now
          = (some (.int amount),
             withMemory st (dset st.memoryCache key
               ⟨.int amount, now + ttlArg.getD st.defaultTtl⟩))) := by
  refine ⟨?_, ?_, ?_, ?_, ?_, ?_⟩
  · rcases hd : dget st.memoryCache key with _ | entry
    · simp [cacheIncrement, hmem, hd]
    · rcases hv : entry.value with n | x | s | _ <;>
        simp [cacheIncrement, hmem, hd, hv]
  · intro hd
    simp [cacheIncrement, withMemory, hmem, hd]
  · intro entry n hd hv
    simp [cacheIncrement, withMemory, hmem, hd, hv]
  · intro entry x hd hv
    simp [cacheIncrement, withMemory, hmem, hd, hv]
  · intro entry s hd hv
    simp [cacheIncrement, withMemory, hmem, hd, hv]
  · intro entry hd hv
    simp [cacheIncrement, withMemory, hmem, hd, hv]

/-- Witness for C10: incrementing an absent key stores the amount; an int
value is added to; a string value is overwritten with the amount; the
expiry is `now + ttl` with the default TTL applied when None. -/
theorem memory_increment_witness :
    cacheIncrement ⟨false, none, [], 3600⟩ "c" 5 none 10
      = (some (.int 5), ⟨false, none, [("c", ⟨.int 5, 3610⟩)], 3600⟩)
    ∧ cacheIncrement ⟨false, none, [("c", ⟨.int 5, 3610⟩)], 3600⟩ "c" 2
        (some 60) 20
      = (some (.int 7), ⟨false, none, [("c", ⟨.int 7, 80⟩)], 3600⟩)
    ∧ cacheIncrement ⟨false, none, [("c", ⟨.str "x", 99⟩)], 3600⟩ "c" 2
        (some 60) 20
      = (some (.int 2), ⟨false, none, [("c", ⟨.int 2, 80⟩)], 3600⟩) := by
  have h1 := memory_increment ⟨false, none, [], 3600⟩ "c" 5 none 10 rfl
  have h2 := memory_increment ⟨false, none, [("c", ⟨.int 5, 3610⟩)], 3600⟩
    "c" 2 (some 60) 20 rfl
  have h3 := memory_increment ⟨false, none, [("c", ⟨.str "x", 99⟩)], 3600⟩
    "c" 2 (some 60) 20 rfl
  exact ⟨h1.2.1 (by decide),
    by simpa using h2.2.2.1 ⟨.int 5, 3610⟩ 5 (by decide) rfl,
    by simpa using h3.2.2.2.2.1 ⟨.str "x", 99⟩ "x" (by decide) rfl⟩

/-! ### One row per pair -/

theorem dbStored_none_not_mem {db : DbState} {identifier resource : String}
    (h : dbStored db identifier resource = none) :
    (identifier, resource) ∉ pairKeys db := by
  intro hmem
  rw [pairKeys, List.mem_map] at hmem
  obtain ⟨row, hrow, hkey⟩ := hmem
  have hfind := List.find?_eq_none.mp h row hrow
  have h1 : row.identifier = identifier := ((Prod.mk.injEq _ _ _ _).mp hkey).1
  have h2 : row.resource = resource := ((Prod.mk.injEq _ _ _ _).mp hkey).2
  exact hfind (by simp [rowMatches, h1, h2])

theorem updateFirst_length (p : RateLimitRow → Bool)
    (f : RateLimitRow → RateLimitRow) :
    ∀ db : DbState, (updateFirst p f db).length = db.length := by
  intro db
  induction db with
  | nil => rfl
  | cons r rs ih =>
    by_cases hp : p r = true
    · rw [updateFirst, if_pos hp]
      simp
    · rw [updateFirst, if_neg hp]
      simp [ih]

theorem atMostOnePerPair_check (db : DbState) (identifier resource : String)
    (maxRequests : ℕ) (W now : ℤ) (h : atMostOnePerPair db) :
    atMostOnePerPair
      (dbIsAllowed db identifier resource maxRequests W now).2 := by
  rcases hd : dbStored db identifier resource with _ | row
  · rw [dbIsAllowed_fresh hd]
    unfold atMostOnePerPair at h ⊢
    rw [show pairKeys (db ++ [⟨identifier, resource, 1, now + W⟩])
      = pairKeys db ++ [(identifier, resource)] by simp [pairKeys]]
    rw [List.nodup_append]
    refine ⟨h, by simp, ?_⟩
    intro x hx hx'
    have hxa : x = (identifier, resource) := by simpa using hx'
    subst hxa
    exact dbStored_none_not_mem hd hx
  · by_cases h1 : row.resetAt < now
    · rw [dbIsAllowed_reset hd h1]
      unfold atMostOnePerPair at h ⊢
      show (pairKeys (updateFirst (rowMatches identifier resource)
        (fun r => { r with requestsCount := 1, resetAt := now + W }) db)).Nodup
      rw [@pairKeys_updateFirst (rowMatches identifier resource)
        (fun r => { r with requestsCount := 1, resetAt := now + W })
        (fun x => ⟨rfl, rfl⟩) db]
      exact h
    · by_cases h2 : maxRequests ≤ row.requestsCount
      · rw [dbIsAllowed_reject hd h1 h2]
        exact h
      · rw [dbIsAllowed_incr hd h1 (by omega)]
        unfold atMostOnePerPair at h ⊢
        show (pairKeys (updateFirst (rowMatches identifier resource)
          (fun r => { r with requestsCount := r.requestsCount + 1 }) db)).Nodup
        rw [@pairKeys_updateFirst (rowMatches identifier resource)
          (fun r => { r with requestsCount := r.requestsCount + 1 })
          (fun x => ⟨rfl, rfl⟩) db]
        exact h

theorem atMostOnePerPair_reset (db : DbState) (identifier resource : String)
    (h : atMostOnePerPair db) :
    atMostOnePerPair (dbResetLimit db identifier resource) := by
  unfold dbResetLimit
  rcases hd : dbStored db identifier resource with _ | row
  · exact h
  · unfold atMostOnePerPair at h ⊢
    exact List.Nodup.sublist
      (List.Sublist.map _ (removeFirst_sublist _ db)) h

/-- Claim C8 counterexample: the claim attributes the one-row-per-pair
invariant to a unique constraint, but the `rate_limits` model declares
none: the table-level constraint list is empty and no column carries
`unique=True`.  Consequently a table state with two rows for one pair is
representable, and on it `reset_limit` deletes only the first row, so
the pair still has a row afterwards — behaviour a unique constraint
would have made impossible. -/
theorem rate_limit_no_unique_constraint_counterexample :
    rateLimitTableUniqueConstraints = []
    ∧ (rateLimitTableColumns.filter (fun c => c.unique)).map
        (fun c => c.name) = []
    ∧ dbResetLimit [⟨"u", "r", 1, 10⟩, ⟨"u", "r", 5, 20⟩] "u" "r"
        = [⟨"u", "r", 5, 20⟩] := by decide

/-- Claim C8 (amended): at most one row per `(identifier, resource)` pair
is maintained by the access pattern, not by a schema constraint: every
sequence of `is_allowed` and `reset_limit` calls starting from a state
with at most one row per pair preserves that invariant, and `is_allowed`
never adds a row when the pair already has one (the table length is
unchanged); a missing pair appends exactly one row. -/
theorem rate_limit_one_row_per_pair :
    (∀ (ops : List DbOp) (db : DbState), atMostOnePerPair db →
        atMostOnePerPair (runDbOps ops db))
    ∧ (∀ (db : DbState) (identifier resource : String) (maxRequests : ℕ)
        (W now : ℤ) (row : RateLimitRow),
        dbStored db identifier resource = some row →
        ((dbIsAllowed db identifier resource maxRequests W now).2).length
          = db.length)
    ∧ (∀ (db : DbState) (identifier resource : String) (maxRequests : ℕ)
        (W now : ℤ),
        dbStored db identifier resource = none →
        (dbIsAllowed db identifier resource maxRequests W now).2
          = db ++ [⟨identifier, resource, 1, now + W⟩]) := by
  refine ⟨?_, ?_, ?_⟩
  · intro ops
    induction ops with
    | nil => intro db h; exact h
    | cons op rest ih =>
      intro db h
      rcases op with ⟨i, r, m, w, n⟩ | ⟨i, r⟩
      · exact ih _ (atMostOnePerPair_check db i r m w n h)
      · exact ih _ (atMostOnePerPair_reset db i r h)
  · intro db identifier resource maxRequests W now row hd
    by_cases h1 : row.resetAt < now
    · rw [dbIsAllowed_reset hd h1]
      exact updateFirst_length _ _ db
    · by_cases h2 : maxRequests ≤ row.requestsCount
      · rw [dbIsAllowed_reject hd h1 h2]
      · rw [dbIsAllowed_incr hd h1 (by omega)]
        exact updateFirst_length _ _ db
  · intro db identifier resource maxRequests W now hd
    rw [dbIsAllowed_fresh hd]

/-- Witness for C8: a concrete sequence of checks and resets keeps the
invariant, a check on an existing pair does not grow the table, and a
first check appends exactly one row. -/
theorem rate_limit_one_row_per_pair_witness :
    atMostOnePerPair
      (runDbOps [.check "u" "cmd" 2 60 0, .check "u" "cmd" 2 60 1,
        .check "v" "cmd" 2 60 1, .reset "u" "cmd", .check "u" "cmd" 2 60 2] [])
    ∧ ((dbIsAllowed [⟨"u", "cmd", 1, 60⟩] "u" "cmd" 2 60 1).2).length = 1
    ∧ (dbIsAllowed [] "u" "cmd" 2 60 0).2 = [⟨"u", "cmd", 1, 60⟩] := by
  refine ⟨rate_limit_one_row_per_pair.1 _ [] (by decide), ?_,
    rate_limit_one_row_per_pair.2.2 [] "u" "cmd" 2 60 0 (by decide)⟩
  exact rate_limit_one_row_per_pair.2.1 [⟨"u", "cmd", 1, 60⟩] "u" "cmd" 2 60 1
    ⟨"u", "cmd", 1, 60⟩ (by decide)

/-! ### Reset semantics -/

theorem dbStored_removeFirst_none (identifier resource : String) :
    ∀ db : DbState, atMostOnePerPair db →
      (removeFirst (rowMatches identifier resource) db).find?
        (rowMatches identifier resource) = none := by
  intro db
  induction db with
  | nil => intro _; rfl
  | cons x rs ih =>
    intro h
    have hpk : pairKeys (x :: rs)
        = (x.identifier, x.resource) :: pairKeys rs := rfl
    unfold atMostOnePerPair at h
    rw [hpk, List.nodup_cons] at h
    by_cases hp : rowMatches identifier resource x = true
    · rw [removeFirst, if_pos hp]
      rw [List.find?_eq_none]
      intro y hy hpy
      have hx1 : x.identifier = identifier ∧ x.resource = resource := by
        simpa [rowMatches] using hp
      have hy1 : y.identifier = identifier ∧ y.resource = resource := by
        simpa [rowMatches] using hpy
      apply h.1
      rw [pairKeys, List.mem_map]
      exact ⟨y, hy, by rw [hx1.1, hx1.2, hy1.1, hy1.2]⟩
    · rw [removeFirst, if_neg hp]
      simp only [Bool.not_eq_true] at hp
      rw [List.find?_cons, hp]
      exact ih h.2

/-- Claim C9 counterexample: the claim promises that after a reset the
next `is_allowed` check is admitted unconditionally.  With
`max_requests = 0`, the in-memory check after a reset is not admitted:
it takes the reject path on an empty pruned list and raises an
`IndexError` at `requests[0]` (the persistent limiter, by contrast,
admits its first check even with `max_requests = 0`). -/
theorem reset_zero_max_counterexample :
    memResetLimit [] "u" "cmd" = []
    ∧ memIsAllowed (memResetLimit [] "u" "cmd") "u" "cmd" 0 60 0
        = (none, [("u:cmd", ⟨[], 0⟩)]) := by decide

/-- Claim C9 (amended): for both limiters, `reset_limit` on a pair with
no record is a no-op that does not raise, and resetting twice equals
resetting once; after a reset the record is gone and the next check is
admitted as a first-ever check — unconditionally for the persistent
limiter, and for every `max_requests ≥ 1` for the in-memory limiter
(with `max_requests = 0` its first-ever check raises instead of
admitting).  The persistent-side statements assume at most one row per
pair, the invariant of C8. -/
theorem reset_idempotent :
    (∀ (st : MemState) (identifier resource : String),
      dget st (memKey identifier resource) = none →
      memResetLimit st identifier resource = st)
    ∧ (∀ (st : MemState) (identifier resource : String),
        memResetLimit (memResetLimit st identifier resource)
          identifier resource = memResetLimit st identifier resource)
    ∧ (∀ (st : MemState) (identifier resource : String),
        dget (memResetLimit st identifier resource)
          (memKey identifier resource) = none)
    ∧ (∀ (st : MemState) (identifier resource : String) (maxRequests : ℕ)
        (W now : ℤ), 1 ≤ maxRequests →
        memIsAllowed (memResetLimit st identifier resource)
            identifier resource maxRequests W now
          = (some (true, 0),
             dset (memResetLimit st identifier resource)
               (memKey identifier resource) ⟨[now], now⟩))
    ∧ (∀ (db : DbState) (identifier resource : String),
        dbStored db identifier resource = none →
        dbResetLimit db identifier resource = db)
    ∧ (∀ (db : DbState) (identifier resource : String),
        atMostOnePerPair db →
        dbResetLimit (dbResetLimit db identifier resource)
          identifier resource = dbResetLimit db identifier resource)
    ∧ (∀ (db : DbState) (identifier resource : String),
        atMostOnePerPair db →
        dbStored (dbResetLimit db identifier resource) identifier resource
          = none)
    ∧ (∀ (db : DbState) (identifier resource : String) (maxRequests : ℕ)
        (W now : ℤ), atMostOnePerPair db →
        dbIsAllowed (dbResetLimit db identifier resource)
            identifier resource maxRequests W now
          = ((true, 0),
             dbResetLimit db identifier resource
               ++ [⟨identifier, resource, 1, now + W⟩])) := by
  have hstored : ∀ (db : DbState) (identifier resource : String),
      atMostOnePerPair db →
      dbStored (dbResetLimit db identifier resource) identifier resource
        = none := by
    intro db identifier resource h
    unfold dbResetLimit
    rcases hd : dbStored db identifier resource with _ | row
    · exact hd
    · exact dbStored_removeFirst_none identifier resource db h
  have hnoop : ∀ (db : DbState) (identifier resource : String),
      dbStored db identifier resource = none →
      dbResetLimit db identifier resource = db := by
    intro db identifier resource h
    simp [dbResetLimit, h]
  refine ⟨?_, ?_, ?_, ?_, hnoop, ?_, hstored, ?_⟩
  · intro st identifier resource h
    exact ddel_eq_self h
  · intro st identifier resource
    exact ddel_ddel st (memKey identifier resource)
  · intro st identifier resource
    exact dget_ddel_self st (memKey identifier resource)
  · intro st identifier resource maxRequests W now hmax
    exact memIsAllowed_allowFresh
      (dget_ddel_self st (memKey identifier resource)) (by omega)
  · intro db identifier resource h
    exact hnoop _ identifier resource (hstored db identifier resource h)
  · intro db identifier resource maxRequests W now h
    exact dbIsAllowed_fresh (hstored db identifier resource h)

/-- Witness for C9: concrete resets on absent and present records for
both limiters, idempotence, and the post-reset first-ever admission. -/
theorem reset_idempotent_witness :
    memResetLimit [] "p" "q" = []
    ∧ memResetLimit (memResetLimit [("p:q", ⟨[5], 5⟩)] "p" "q") "p" "q"
        = memResetLimit [("p:q", ⟨[5], 5⟩)] "p" "q"
    ∧ dget (memResetLimit [("p:q", ⟨[5], 5⟩)] "p" "q") (memKey "p" "q") = none
    ∧ memIsAllowed (memResetLimit [("p:q", ⟨[5], 5⟩)] "p" "q") "p" "q" 3 60 9
        = (some (true, 0), [("p:q", ⟨[9], 9⟩)])
    ∧ dbResetLimit [] "p" "q" = []
    ∧ dbResetLimit (dbResetLimit [⟨"p", "q", 2, 50⟩] "p" "q") "p" "q"
        = dbResetLimit [⟨"p", "q", 2, 50⟩] "p" "q"
    ∧ dbStored (dbResetLimit [⟨"p", "q", 2, 50⟩] "p" "q") "p" "q" = none
    ∧ dbIsAllowed (dbResetLimit [⟨"p", "q", 2, 50⟩] "p" "q") "p" "q" 3 60 9
        = ((true, 0), [⟨"p", "q", 1, 69⟩]) := by
  refine ⟨reset_idempotent.1 [] "p" "q" (by decide),
    reset_idempotent.2.1 [("p:q", ⟨[5], 5⟩)] "p" "q",
    reset_idempotent.2.2.1 [("p:q", ⟨[5], 5⟩)] "p" "q",
    ?_,
    reset_idempotent.2.2.2.2.1 [] "p" "q" (by decide),
    reset_idempotent.2.2.2.2.2.1 [⟨"p", "q", 2, 50⟩] "p" "q" (by decide),
    reset_idempotent.2.2.2.2.2.2.1 [⟨"p", "q", 2, 50⟩] "p" "q" (by decide),
    ?_⟩
  · have h := reset_idempotent.2.2.2.1 [("p:q", ⟨[5], 5⟩)] "p" "q" 3 60 9
      (by decide)
    simpa using h
  · have h := reset_idempotent.2.2.2.2.2.2.2 [⟨"p", "q", 2, 50⟩] "p" "q" 3 60 9
      (by decide)
    simpa using h

end Cocobot
